import Mathlib

/-!
Verification development for the needforheat-dutch-weather pipeline.

The Python source is shallowly embedded as executable Lean definitions:

* time instants are integers counting minutes since the Unix epoch (the
  source works at whole-minute granularity everywhere the claims look);
* pandas frames become explicit lists of rows; NaN cells become `none`;
* fallible code paths become `Except`;
* the KNMI HTTP endpoint is an oracle parameter (`Server`), since the
  network payload is external to the repository.

Sections follow the source files:
  1. `src/dutch_weather/weather_interpolate.py` (temporal_interpolate_weather_data)
  2. `src/weather/knmi.py` (fetch_weather_data and its chunk loop)
  3. `src/weather/knmi.py` (process_knmi_weather_data, line level)
-/

/-- Floor an instant (minutes since epoch) to UTC midnight: models
`pandas.Timestamp.normalize()`.  On `Int`, `/` and `%` are Euclidean
division — floor division for a positive divisor, matching Python's
`//`/`%` and pandas semantics. -/
def normalizeM (t : Int) : Int := 1440 * (t / 1440)

/-! Exact rational arithmetic, spelled through `mkRat` so that every
operation the model performs evaluates inside the kernel (the `Rat`
instance operations are `@[irreducible]` upstream).  The helpers agree
with the field operations of `ℚ` and model the (here exact) float
arithmetic of the source. -/

/-- An integer as a rational. -/
def qOfInt (n : Int) : ℚ := mkRat n 1

/-- Rational addition. -/
def qAdd (a b : ℚ) : ℚ := mkRat (a.num * (b.den : Int) + b.num * (a.den : Int)) (a.den * b.den)

/-- Rational subtraction. -/
def qSub (a b : ℚ) : ℚ := mkRat (a.num * (b.den : Int) - b.num * (a.den : Int)) (a.den * b.den)

/-- Rational multiplication. -/
def qMul (a b : ℚ) : ℚ := mkRat (a.num * b.num) (a.den * b.den)

/-- Rational division (with the usual `x / 0 = 0` convention, unused on
the inputs the model feeds it). -/
def qDiv (a b : ℚ) : ℚ :=
  if b.num < 0 then mkRat (-(a.num * (b.den : Int))) (a.den * b.num.natAbs)
  else mkRat (a.num * (b.den : Int)) (a.den * b.num.natAbs)

instance {ε α : Type} [DecidableEq ε] [DecidableEq α] : DecidableEq (Except ε α) :=
  fun a b =>
    match a, b with
    | .error x, .error y =>
        if h : x = y then isTrue (congrArg Except.error h)
        else isFalse (fun hh => h (Except.error.inj hh))
    | .error _, .ok _ => isFalse (fun hh => Except.noConfusion hh)
    | .ok _, .error _ => isFalse (fun hh => Except.noConfusion hh)
    | .ok x, .ok y =>
        if h : x = y then isTrue (congrArg Except.ok h)
        else isFalse (fun hh => h (Except.ok.inj hh))

/-! ### Generic list helpers shared by the embedding -/

/-- Keep the first occurrence of each element: models
`DataFrame.drop_duplicates()` (pandas keeps the first duplicate). -/
def dedupFirst {α : Type} [DecidableEq α] (l : List α) : List α :=
  l.foldl (fun acc x => if x ∈ acc then acc else acc ++ [x]) []

/-- Insert `x` into an already sorted list after every element `y` with
`le y x`; the building block of a stable ascending sort. -/
def insertStable {α : Type} (le : α → α → Bool) : List α → α → List α
  | [], x => [x]
  | y :: ys, x => if le y x then y :: insertStable le ys x else x :: y :: ys

/-- Stable ascending sort (insertion sort).  pandas `sort_index` /
`sort_values` are stable sorts, and any two stable sorts under the same
total preorder agree, so this is extensionally the pandas sort. -/
def sortStable {α : Type} (le : α → α → Bool) (l : List α) : List α :=
  l.foldl (insertStable le) []

/-! ### 1. Temporal interpolation (`src/dutch_weather/weather_interpolate.py`)

A per-metric series is a list of `(timestamp in minutes, value)` pairs in
frame order.  Values are `ℚ`: the input values reaching this stage are
finite floats, and all quantities the claims compare are exactly
representable, so exact rational arithmetic agrees with the float
computation on every input a theorem below evaluates. -/

/-- Consecutive differences: models `Series.diff().dropna()` over the
timestamp index (in minutes; the feed is minute-aligned so pandas'
`.round()` is the identity). -/
def diffsI (l : List Int) : List Int :=
  (l.zip l.tail).map (fun p => p.2 - p.1)

/-- Statistical mode: models `Series.mode().iloc[0]`, which is the
*smallest* among the most frequent values (pandas sorts the modes), and
raises `IndexError` on an empty series (`none` here). -/
def listMode (l : List Int) : Option Int :=
  let maxCount := (l.map (fun x => l.count x)).foldr max 0
  (l.filter (fun x => l.count x = maxCount)).foldr
    (fun x acc => match acc with
      | none => some x
      | some y => some (min x y)) none

/-- Line 125 of `weather_interpolate.py`:
`upsample__min = max(1, math.gcd(modal_intv__min, interpolate__min))`. -/
def upsample__min (modal_intv__min interpolate__min : Int) : Int :=
  max 1 (Int.gcd modal_intv__min interpolate__min : Int)

/-- Minimum of a timestamp list with a default (models `index.min()`). -/
def listMinI (l : List Int) (d : Int) : Int := l.foldl min d

/-- Maximum of a timestamp list with a default (models `index.max()`). -/
def listMaxI (l : List Int) (d : Int) : Int := l.foldl max d

/-- Models `s.resample(f"{u}min").first()`.  Bins are `u`-minute wide,
anchored at pandas' default `origin='start_day'` (midnight of the day of
the earliest timestamp); each bin's label is its left edge and its value
is the first series element falling in the bin, `none` when the bin is
empty (NaN in pandas). -/
def resampleFirst (u : Int) (s : List (Int × ℚ)) : List (Int × Option ℚ) :=
  match s with
  | [] => []
  | (t0, _) :: _ =>
    let ts := s.map Prod.fst
    let tmin := listMinI ts t0
    let tmax := listMaxI ts t0
    let origin := normalizeM tmin
    let lo := (tmin - origin) / u
    let hi := (tmax - origin) / u
    (List.range ((hi - lo).toNat + 1)).map (fun k =>
      let b := lo + k
      (origin + u * b,
        (s.find? (fun p => (p.1 - origin) / u = b)).map Prod.snd))

/-- The valid (non-NaN) points of a resampled grid. -/
def validPoints (g : List (Int × Option ℚ)) : List (Int × ℚ) :=
  g.filterMap (fun p => p.2.map (fun v => (p.1, v)))

/-- Models `Series.interpolate(method="time")`: each NaN strictly between
two valid points is filled by exact time-weighted linear interpolation;
NaNs after the last valid point are forward-filled with its value and
NaNs before the first valid point stay NaN (pandas' default
`limit_direction='forward'`). -/
def interpolateTime (g : List (Int × Option ℚ)) : List (Int × Option ℚ) :=
  g.map (fun p =>
    match p.2 with
    | some v => (p.1, some v)
    | none =>
      let before := (validPoints g).filter (fun q => q.1 < p.1)
      let after := (validPoints g).filter (fun q => p.1 < q.1)
      match before.getLast?, after.head? with
      | some (t0, v0), some (t1, v1) =>
          (p.1, some (qAdd v0 (qMul (qSub v1 v0)
            (qDiv (qOfInt (p.1 - t0)) (qOfInt (t1 - t0))))))
      | some (_, v0), none => (p.1, some v0)
      | none, _ => (p.1, none))

/-- Sum of a list of rationals. -/
def listSumQ (l : List ℚ) : ℚ := l.foldl qAdd (mkRat 0 1)

/-- Models `s.resample(f"{m}min").mean()`: same binning as
`resampleFirst`; a bin's value is the arithmetic mean of the valid values
in it, `none` when it has no valid value. -/
def resampleMean (m : Int) (g : List (Int × Option ℚ)) : List (Int × Option ℚ) :=
  match g with
  | [] => []
  | (t0, _) :: _ =>
    let ts := g.map Prod.fst
    let tmin := listMinI ts t0
    let tmax := listMaxI ts t0
    let origin := normalizeM tmin
    let lo := (tmin - origin) / m
    let hi := (tmax - origin) / m
    (List.range ((hi - lo).toNat + 1)).map (fun k =>
      let b := lo + k
      let vs := g.filterMap (fun p => if (p.1 - origin) / m = b then p.2 else none)
      (origin + m * b,
        if vs.isEmpty then none else some (qDiv (listSumQ vs) (qOfInt vs.length))))

inductive TErr : Type
  /-- `IndexError` from `.mode().iloc[0]` on an empty diff series
  (`weather_interpolate.py` lines 107-113). -/
  | indexError
deriving DecidableEq

/-- Loop body of `temporal_interpolate_weather_data` for one metric
(`weather_interpolate.py` lines 103-139): compute the modal interval
(raising on an empty diff series), pass the series through unchanged when
it equals the requested cadence, otherwise resample onto the gcd grid,
time-interpolate, and aggregate back by mean. -/
def temporal_interpolate_one (interpolate__min : Int) (s : List (Int × ℚ)) :
    Except TErr (List (Int × Option ℚ)) :=
  match listMode (diffsI (s.map Prod.fst)) with
  | none => .error .indexError
  | some modal_intv__min =>
    if interpolate__min = modal_intv__min then
      .ok (s.map (fun p => (p.1, some p.2)))
    else
      .ok (resampleMean interpolate__min
        (interpolateTime (resampleFirst (upsample__min modal_intv__min interpolate__min) s)))

/-- The rows of a `(timestamp, property, value)` frame belonging to one
property, in frame order: models
`df_weather.groupby(level="property")["value"]` for one group followed by
`droplevel("property")`. -/
def seriesOf (df : List (Int × String × ℚ)) (p : String) : List (Int × ℚ) :=
  df.filterMap (fun r => if r.2.1 = p then some (r.1, r.2.2) else none)

/-- The distinct property names in ascending order: `groupby` iterates
groups sorted by key. -/
def groupProps (df : List (Int × String × ℚ)) : List String :=
  sortStable (fun a b => decide (a ≤ b)) (dedupFirst (df.map (fun r => r.2.1)))

/-- The `results` accumulation of the per-property loop: an exception in
any group propagates out of the whole call. -/
def collectResults (interpolate__min : Int) (df : List (Int × String × ℚ)) :
    List String → Except TErr (List ((Int × String) × Option ℚ))
  | [] => .ok []
  | p :: ps =>
    match temporal_interpolate_one interpolate__min (seriesOf df p) with
    | .error e => .error e
    | .ok rows =>
      match collectResults interpolate__min df ps with
      | .error e => .error e
      | .ok rest => .ok (rows.map (fun q => ((q.1, p), q.2)) ++ rest)

/-- `temporal_interpolate_weather_data` (`weather_interpolate.py` lines
74-141): per-property interpolation followed by
`pd.concat(results).sort_index()` on the `(timestamp, property)` key. -/
def temporal_interpolate_weather_data (df : List (Int × String × ℚ))
    (interpolate__min : Int) : Except TErr (List ((Int × String) × Option ℚ)) :=
  match collectResults interpolate__min df (groupProps df) with
  | .error e => .error e
  | .ok rows =>
      .ok (sortStable
        (fun a b => decide (a.1.1 < b.1.1) ||
          (decide (a.1.1 = b.1.1) && decide (a.1.2 ≤ b.1.2))) rows)

/-! ### 2. Chunked fetch and assembly (`src/weather/knmi.py`, `fetch_weather_data`)

A processed chunk is a frame: a list of column names plus rows carrying
the `(lat__degN, lon__degE, timestamp)` index and one optional value per
column (`none` models NaN, the outcome of `pd.to_numeric(errors='coerce')`
on an unparseable cell).  The composite of `download_knmi_uurgegevens`
and `process_knmi_weather_data` is an oracle (`Server`) mapping the
request's start and end day numbers to an outcome, since the response
body comes from the network. -/

structure KRow where
  ts : Int
  lat : ℚ
  lon : ℚ
  vals : List (Option ℚ)
deriving DecidableEq

structure KFrame where
  cols : List String
  rows : List KRow
deriving DecidableEq

def emptyKFrame : KFrame := ⟨[], []⟩

/-- One entry of the `metrics` mapping: KNMI code, output column name,
conversion factor. -/
structure Metric where
  code : String
  outName : String
  factor : ℚ
deriving DecidableEq

inductive FetchErr : Type
  /-- `ValueError` raised at `knmi.py` lines 151-152 (and the identical
  guard in `api.py`) when `end < start`. -/
  | invalidInterval
  /-- The `Exception` raised by `download_knmi_uurgegevens` on a
  non-success transport response: fatal, aborts the fetch. -/
  | networkError
  /-- `KeyError` from `DataFrame.drop(columns=...)` when a column to drop
  is not present (`knmi.py` line 207). -/
  | keyError
deriving DecidableEq

inductive ChunkOutcome : Type
  /-- `process_knmi_weather_data` raised `pandas.errors.ParserError`. -/
  | parserError
  /-- The transport response was not a success. -/
  | networkError
  /-- The chunk downloaded and parsed into a frame. -/
  | parsed (f : KFrame)

/-- The network+parse oracle: given the request's start day and end day
(`start=YYYYMMDD01`, `end=YYYYMMDD24`), the outcome of downloading and
processing that chunk. -/
def Server : Type := Int → Int → ChunkOutcome

/-- Value of column `c` in row `r` of a frame with columns `cols`. -/
def rowGet (cols : List String) (r : KRow) (c : String) : Option ℚ :=
  ((cols.zip r.vals).lookup c).join

/-- Models `df[name] = <g row>`: overwrite the column if present,
otherwise append it. -/
def setCol (f : KFrame) (name : String) (g : KRow → Option ℚ) : KFrame :=
  match f.cols.findIdx? (· = name) with
  | some i => ⟨f.cols, f.rows.map (fun r => { r with vals := r.vals.set i (g r) })⟩
  | none => ⟨f.cols ++ [name], f.rows.map (fun r => { r with vals := r.vals ++ [g r] })⟩

/-- Models `df.drop(columns=cs)`: raises `KeyError` when any requested
label is absent, otherwise removes those columns. -/
def dropCols (f : KFrame) (cs : List String) : Except FetchErr KFrame :=
  if cs.all (fun c => f.cols.contains c) then
    .ok ⟨f.cols.filter (fun c => ¬ cs.contains c),
      f.rows.map (fun r =>
        { r with vals := ((f.cols.zip r.vals).filterMap
            (fun p => if cs.contains p.1 then none else some p.2)) })⟩
  else
    .error .keyError

/-- `knmi.py` lines 193-207: for each metric present as a column, write
the converted output column; collect every renamed source code; then drop
the collected originals (pandas raises if one is missing). -/
def renameMetrics (metrics : List Metric) (f : KFrame) : Except FetchErr KFrame :=
  let f1 := metrics.foldl
    (fun acc m =>
      if acc.cols.contains m.code then
        setCol acc m.outName (fun r => (rowGet acc.cols r m.code).map (fun v => qMul v m.factor))
      else acc) f
  let columns_to_drop := metrics.filterMap
    (fun m => if m.outName ≠ m.code then some m.code else none)
  dropCols f1 columns_to_drop

/-- Re-express a row's values against a target column list (pandas
aligns on column labels when concatenating, filling absent columns with
NaN). -/
def alignRow (srcCols : List String) (tgt : List String) (r : KRow) : KRow :=
  { r with vals := tgt.map (fun c => ((srcCols.zip r.vals).lookup c).join) }

/-- Models `pd.concat([f, g])`: union of the column labels in order of
appearance, rows of `f` then rows of `g`, aligned. -/
def concatF (f g : KFrame) : KFrame :=
  let cols := f.cols ++ g.cols.filter (fun c => ¬ f.cols.contains c)
  ⟨cols, f.rows.map (alignRow f.cols cols) ++ g.rows.map (alignRow g.cols cols)⟩

/-- A row with no NaN cell (`df.dropna()` keeps exactly these). -/
def rowComplete (r : KRow) : Bool := r.vals.all Option.isSome

/-- `knmi.py` lines 216-224: `reset_index` (a no-op here, the index is
inline), `dropna`, `drop_duplicates`, `tz_convert` (a no-op on instants),
then `set_index(['timestamp','lat__degN','lon__degE']).sort_index()`. -/
def finalFormat (f : KFrame) : KFrame :=
  ⟨f.cols,
    sortStable
      (fun a b => decide (a.ts < b.ts) ||
        (decide (a.ts = b.ts) && (decide (a.lat < b.lat) ||
          (decide (a.lat = b.lat) && decide (a.lon ≤ b.lon)))))
      (dedupFirst (f.rows.filter rowComplete))⟩

/-- Models `pd.date_range(start, end, freq="4W")`: the `W` offset is
anchored on Sundays, so the elements are the Sundays `s` with
`start ≤ s ≤ end`, stepping 28 days from the first one.  Day 3 of the
epoch (1970-01-04) was a Sunday, so day `d` is a Sunday iff
`d % 7 = 3`.  Instants are minutes; 28 days is 40320 minutes. -/
def dateRange4W (start endT : Int) : List Int :=
  let d := start / 1440
  let s := d + (3 - d) % 7
  let first := 1440 * s
  if endT < first then []
  else (List.range (((endT - first) / 40320).toNat + 1)).map
    (fun k : Nat => first + 40320 * (k : Int))

/-- Accumulator of the chunk loop: the evolving
`(df_weather, df_weather_chunk)` pair (or the exception that aborted the
loop) plus the log of issued requests. -/
structure FetchAcc where
  res : Except FetchErr (KFrame × KFrame)
  reqs : List (Int × Int)

/-- One iteration of the loop at `knmi.py` lines 172-210.  The
`- 1` models the source's `- timedelta(seconds=1)`: both operands of the
`min` and the day extraction only ever see midnight-aligned values, where
backing off one minute and one second select the same calendar day.
`ParserError` leaves `df_weather_chunk` holding the previous iteration's
frame, exactly as the source's `except` clause does. -/
def fetchStep (server : Server) (metrics : List Metric) (start_date end_date : Int)
    (acc : FetchAcc) (g : Int) : FetchAcc :=
  match acc.res with
  | .error _ => acc
  | .ok (df_weather, df_weather_chunk) =>
    let current_end := min end_date (g + 40320 - 1)
    let current_start := max start_date g
    let req := (current_start / 1440, current_end / 1440)
    let reqs := acc.reqs ++ [req]
    match server req.1 req.2 with
    | .networkError => ⟨.error .networkError, reqs⟩
    | .parserError =>
        if df_weather_chunk.rows.isEmpty then ⟨.ok (df_weather, df_weather_chunk), reqs⟩
        else
          match renameMetrics metrics df_weather_chunk with
          | .error e => ⟨.error e, reqs⟩
          | .ok chunk => ⟨.ok (concatF df_weather chunk, chunk), reqs⟩
    | .parsed f =>
        if f.rows.isEmpty then ⟨.ok (df_weather, f), reqs⟩
        else
          match renameMetrics metrics f with
          | .error e => ⟨.error e, reqs⟩
          | .ok chunk => ⟨.ok (concatF df_weather chunk, chunk), reqs⟩

/-- A closed time interval of instants (minutes since epoch); models the
`pd.Interval(left, right, closed="both")` handed to the fetch.  Time-zone
conversions (`tz_convert`) do not move the instant, so the zone is not
represented. -/
structure KInterval where
  left : Int
  right : Int

/-- `knmi.py` lines 157-172: the chunk grid the loop iterates.  The
Sunday grid over `[start_date, end_date]` supplies the first chunk start
(falling back to `start_date` when that grid is empty), stepped one grid
point back unless it already is at or before `start_date`; the loop then
ranges over the Sunday grid from there. -/
def fetchGrid (start_date end_date : Int) : List Int :=
  let chunk_starts := dateRange4W start_date end_date
  let fcs0 := match chunk_starts with
    | [] => start_date
    | c :: _ => c
  let first_chunk_start := if start_date ≥ fcs0 then fcs0 else fcs0 - 40320
  dateRange4W first_chunk_start end_date

/-- The chunk loop itself: fold `fetchStep` over the grid starting from
two empty frames and an empty request log. -/
def fetchLoop (server : Server) (metrics : List Metric)
    (start_date end_date : Int) (grid : List Int) : FetchAcc :=
  grid.foldl (fetchStep server metrics start_date end_date)
    ⟨.ok (emptyKFrame, emptyKFrame), []⟩

/-- `knmi.py` lines 212-226: the final formatting, gated on the *last*
chunk frame being non-empty, exactly as in the source. -/
def fetchFinish (acc : FetchAcc) : Except FetchErr KFrame × List (Int × Int) :=
  match acc.res with
  | .error e => (.error e, acc.reqs)
  | .ok (df_weather, df_weather_chunk) =>
      (.ok (if df_weather_chunk.rows.isEmpty then df_weather else finalFormat df_weather),
        acc.reqs)

/-- `fetch_weather_data` (`knmi.py` lines 101-226): guard the interval,
span it with whole UTC days, partition into 4-week chunks on the
Sunday-anchored grid, fetch and process each chunk, and post-process the
concatenation.  Returns the outcome together with the issued requests. -/
def fetch_weather_data (server : Server) (time_interval : KInterval)
    (metrics : List Metric) : Except FetchErr KFrame × List (Int × Int) :=
  if time_interval.right < time_interval.left then
    (.error .invalidInterval, [])
  else
    let start_date := normalizeM time_interval.left
    let end_date := normalizeM time_interval.right + 1440
    fetchFinish (fetchLoop server metrics start_date end_date (fetchGrid start_date end_date))

/-- The rows of a successful fetch (empty when the fetch raised). -/
def fetchRows (server : Server) (time_interval : KInterval) (metrics : List Metric) :
    List KRow :=
  match (fetch_weather_data server time_interval metrics).1 with
  | .ok f => f.rows
  | .error _ => []

/-- `DutchWeather.get_weather` (`src/weather/api.py` lines 78-86): the
entry point's own `end < start` guard, then the fetch.  The geospatial
stage it pipes into afterwards is irrelevant to the interval guard. -/
def DutchWeather.get_weather (server : Server) (start endT : Int)
    (metrics : List Metric) : Except FetchErr KFrame × List (Int × Int) :=
  if endT < start then (.error .invalidInterval, [])
  else fetch_weather_data server ⟨start, endT⟩ metrics

/-! ### 3. Chunk payload scan (`src/weather/knmi.py`, `process_knmi_weather_data`)

Line-level model of the raw-text scan: preamble skip, station-line
collection, header detection, and the empty-chunk early return.  The
claims that reach this level (C7, C10) are about that control flow; the
CSV data branch is modelled down to `read_csv`'s row extraction (raw
comma-split cells), the later per-row numeric/timestamp transformations
being exercised by no claim. -/

/-- Rebuild a string from a reversed character accumulator. -/
def ofRev (cur : List Char) : String := String.mk cur.reverse

/-- Worker for `pySplitlines`: a newline terminates the current line; a
trailing fragment is emitted only when non-final-newline text remains. -/
def pySplitAux : List Char → List Char → List String
  | [], [] => []
  | [], cur => [ofRev cur]
  | c :: rest, cur =>
    if c = '\n' then ofRev cur :: pySplitAux rest []
    else pySplitAux rest (c :: cur)

/-- Python `str.splitlines` restricted to `\n` separators (the only line
separator in the feed): each newline ends a line, a trailing newline adds
no empty line, and the empty string has no lines.  Implemented over the
character list so that it evaluates inside the kernel. -/
def pySplitlines (s : String) : List String := pySplitAux s.toList []

/-- Python `line.lstrip('# ')`: strip every leading `#` or space. -/
def pyLstrip (s : String) : String :=
  String.mk (s.toList.dropWhile (fun c => c = '#' ∨ c = ' '))

/-- Python `str.startswith`, over character lists. -/
def pyStartsWith (s pre : String) : Bool :=
  decide ((s.toList.take pre.toList.length) = pre.toList)

/-- Worker for `pySplitOnComma`. -/
def pySplitCommaAux : List Char → List Char → List String
  | [], cur => [ofRev cur]
  | c :: rest, cur =>
    if c = ',' then ofRev cur :: pySplitCommaAux rest []
    else pySplitCommaAux rest (c :: cur)

/-- Python `str.split(',')` (the `delimiter=','` of `read_csv`). -/
def pySplitOnComma (s : String) : List String := pySplitCommaAux s.toList []

/-- `re.match(r'^# \d{3}', line)`: the line opens with `# ` followed by
three digits. -/
def isStationLine (l : String) : Bool :=
  match l.toList with
  | '#' :: ' ' :: rest => decide (3 ≤ rest.length) && (rest.take 3).all Char.isDigit
  | _ => false

/-- State of the scan loop at `knmi.py` lines 44-53. -/
structure ScanState where
  stationLines : List String
  headerFound : Bool
  dataStartLine : Nat
  broken : Bool
deriving DecidableEq

/-- One `for i, line in enumerate(lines)` iteration of the scan: station
lines are collected, the `# YYYYMMDD` legend is skipped, the header
marker flips the flag, and the first later line that matches none of
these records `data_start_line` and breaks. -/
def scanStep (st : ScanState) (il : Nat × String) : ScanState :=
  if st.broken then st
  else if isStationLine il.2 then
    { st with stationLines := st.stationLines ++ [pyLstrip il.2] }
  else if pyStartsWith il.2 "# YYYYMMDD" then st
  else if pyStartsWith il.2 "# STN,YYYYMMDD" then { st with headerFound := true }
  else if st.headerFound then { st with dataStartLine := il.1, broken := true }
  else st

/-- The lines of the payload after the 5-line preamble is dropped
(`lines = raw_data.splitlines()`, `lines = lines[5:]`). -/
def knmiLines (raw : String) : List String := (pySplitlines raw).drop 5

/-- The scan state after the loop, seeded with
`station_lines = [lines[0].lstrip('# ')]` (so a station-shaped first line
is collected twice, exactly as in the source). -/
def knmiScan (l0 : String) (lines : List String) : ScanState :=
  lines.enum.foldl scanStep ⟨[pyLstrip l0], false, 0, false⟩

inductive PErr : Type
  /-- `IndexError` from `lines[0]` when fewer than 6 lines remain. -/
  | indexError
  /-- `pandas.errors.EmptyDataError` from `read_fwf` when every collected
  station line is empty (no columns to parse). -/
  | emptyDataError
  /-- `KeyError` from `df_stations.set_index(['STN'])` (`knmi.py` line 61)
  when the parsed station block has no column named `STN`. -/
  | keyError
deriving DecidableEq

/-- Worker for `pySplitWs`: split into maximal space-free tokens. -/
def pySplitWsAux : List Char → List Char → List String
  | [], [] => []
  | [], cur => [ofRev cur]
  | c :: rest, cur =>
    if c = ' ' then
      match cur with
      | [] => pySplitWsAux rest []
      | _ :: _ => ofRev cur :: pySplitWsAux rest []
    else pySplitWsAux rest (c :: cur)

/-- The space-separated tokens of a line. -/
def pySplitWs (s : String) : List String := pySplitWsAux s.toList []

/-- Strip leading and trailing spaces (Python `str.strip()` on the
space-separated feed). -/
def trimSpaces (s : String) : String :=
  String.mk (((s.toList.dropWhile (· = ' ')).reverse.dropWhile (· = ' ')).reverse)

/-- `knmi.py` line 60:
`columns.str.replace(r'\(.*\)', '', regex=True).str.strip()` — the
greedy regex removes everything from the first `(` through the last
following `)`, then the name is stripped. -/
def stripParens (s : String) : String :=
  let cs := s.toList
  match cs.findIdx? (· = '(') with
  | none => trimSpaces s
  | some i =>
    match ((cs.enum.filter (fun p => i < p.1 ∧ p.2 = ')')).map Prod.fst).getLast? with
    | none => trimSpaces s
    | some j => trimSpaces (String.mk (cs.take i ++ cs.drop (j + 1)))

/-- The cleaned column names of the station table (`knmi.py` lines
59-60): `read_fwf` takes the first non-blank station line as the header
row — KNMI's station header is space-aligned, so the inferred fixed-width
fields are its space-separated tokens — and line 60 strips each name's
parenthesised unit. -/
def stationHeaderCols (stationLines : List String) : List String :=
  match stationLines.find? (fun l => !l.toList.isEmpty) with
  | none => []
  | some h => (pySplitWs h).map stripParens

/-- The data rows `read_csv(raw_data, skiprows=data_start_line+4)`
extracts: the absolute line `data_start_line + 4` becomes the CSV header
and each following line one comma-split row. -/
def csvRows (raw : String) (data_start_line : Nat) : List (List String) :=
  ((pySplitlines raw).drop (data_start_line + 4 + 1)).map pySplitOnComma

/-- `process_knmi_weather_data` (`knmi.py` lines 31-98) down to the data
branch: drop the preamble, index `lines[0]` (raising when absent), scan
for stations and the header, parse the fixed-width station block
(raising when it is entirely blank), set the station index on the `STN`
column (raising `KeyError` when the block yields no such column — this
runs *before* the empty-table return), return an empty table when the
header was never found and no data line follows it, otherwise hand the
payload to `read_csv`. -/
def process_knmi_weather_data (raw : String) : Except PErr (List (List String)) :=
  match knmiLines raw with
  | [] => .error .indexError
  | l0 :: _ =>
    let st := knmiScan l0 (knmiLines raw)
    if st.stationLines.all (fun l => l.toList.isEmpty) then .error .emptyDataError
    else if "STN" ∉ stationHeaderCols st.stationLines then .error .keyError
    else if (!st.headerFound) && st.dataStartLine = 0 then .ok []
    else .ok (csvRows raw st.dataStartLine)

/-! ### 4. Geospatial interpolation (`src/weather/geo_interpolate.py` lines
6-70; `src/dutch_weather/weather_interpolate.py` lines 8-72 is identical
but for progress text)

The scipy `RBFInterpolator` fit-and-evaluate composite is an oracle
parameter, like the network endpoint: it maps one timestamp's station
data (coordinates paired with the metric's value, `none` for NaN) and
the target point to the evaluation result — an IEEE float64, which is a
rational.  The code's own numeric contribution, the cast
`float(value.astype('float32'))`, is modelled exactly: `roundF32` is
IEEE-754 binary32 round-to-nearest-even (the widening back to float64 is
exact).  Overflow to ±infinity (results of magnitude above the finite
binary32 range, which have no rational representative) is the one
unmodelled case; on every finite-result input `roundF32` is the cast. -/

/-- Fuel-driven `⌊log₂⌋` on `ℕ`: the fuel makes it structurally
recursive, hence kernel-evaluable (`natLog2` supplies fuel `n`). -/
def log2F : Nat → Nat → Nat
  | 0, _ => 0
  | fuel + 1, n => if 2 ≤ n then log2F fuel (n / 2) + 1 else 0

/-- `⌊log₂ n⌋` for `n ≥ 1` (and 0 at 0). -/
def natLog2 (n : Nat) : Nat := log2F n n

/-- `2 ^ k` as a rational, for an integer exponent. -/
def qpow2 (k : Int) : ℚ :=
  if 0 ≤ k then mkRat (2 ^ k.toNat) 1 else mkRat 1 (2 ^ (-k).toNat)

/-- Rational negation. -/
def qNeg (x : ℚ) : ℚ := mkRat (-x.num) x.den

/-- Rational absolute value. -/
def qAbs (x : ℚ) : ℚ := if x.num < 0 then qNeg x else x

/-- Round to the nearest integer, ties to the even integer — the IEEE-754
default rounding direction — via Euclidean floor and remainder. -/
def qRoundHalfEven (x : ℚ) : Int :=
  let n := x.num
  let d := (x.den : Int)
  let f := n / d
  let r := n % d
  if 2 * r < d then f
  else if d < 2 * r then f + 1
  else if f % 2 = 0 then f else f + 1

/-- `⌊log₂ x⌋` for a positive rational: the candidate from the numerator
and denominator logs is off by at most one and corrected by one
comparison. -/
def qFloorLog2 (x : ℚ) : Int :=
  let k : Int := (natLog2 x.num.natAbs : Int) - (natLog2 x.den : Int)
  if qpow2 k ≤ x then k else k - 1

/-- The exponent of the unit in the last place of the binary32 value
nearest `x`: 23 bits below the leading bit, floored at the subnormal
limit `2 ^ (-149)`. -/
def f32ulpExp (x : ℚ) : Int := max (qFloorLog2 (qAbs x) - 23) (-149)

/-- IEEE-754 binary32 round-to-nearest-even of a finite-result real:
scale by the ulp, round to the nearest integer with ties to even, scale
back.  Models `float(value.astype('float32'))`. -/
def roundF32 (x : ℚ) : ℚ :=
  if x.num = 0 then 0
  else qMul (qOfInt (qRoundHalfEven (qMul x (qpow2 (- f32ulpExp x))))) (qpow2 (f32ulpExp x))

/-- The scipy fit-and-evaluate composite: station data and a target point
to the interpolant's evaluation there. -/
def RbfOracle : Type := List ((ℚ × ℚ) × Option ℚ) → ℚ × ℚ → ℚ

/-- Row order of
`reorder_levels(['timestamp','lat__degN','lon__degE']).sort_index()`. -/
def geoRowLe (a b : KRow) : Bool :=
  decide (a.ts < b.ts) || (decide (a.ts = b.ts) && (decide (a.lat < b.lat) ||
    (decide (a.lat = b.lat) && decide (a.lon ≤ b.lon))))

/-- One timestamp's station data for the metric in column `i`: the
coordinates of each station reporting at that timestamp, paired with its
(possibly missing) value — `lat_lon_array` zipped with
`df_timestamp[metric].values`. -/
def geoStationData (df_weather : KFrame) (timestamp : Int) (i : Nat) :
    List ((ℚ × ℚ) × Option ℚ) :=
  ((sortStable geoRowLe df_weather.rows).filter (fun r => r.ts = timestamp)).map
    (fun r => ((r.lat, r.lon), (r.vals.get? i).join))

/-- `interpolate_weather_data` (`geo_interpolate.py` lines 6-70): sort by
(timestamp, lat, lon); for each distinct timestamp in order and each
metric column in order, fit the interpolant on that timestamp's station
data, evaluate it at the target, and emit the value cast to float32.
Output rows are `((timestamp, metric), value)` in append order. -/
def geo_interpolate_weather_data (rbf : RbfOracle) (df_weather : KFrame)
    (lat__degN lon__degE : ℚ) : List ((Int × String) × ℚ) :=
  let sortedRows := sortStable geoRowLe df_weather.rows
  let tss := dedupFirst (sortedRows.map KRow.ts)
  (tss.map (fun timestamp =>
    df_weather.cols.enum.map (fun im =>
      ((timestamp, im.2),
        roundF32 (rbf (geoStationData df_weather timestamp im.1)
          (lat__degN, lon__degE)))))).flatten

/-! ### Concrete scenario data used by the claim theorems -/

/-- A single requested metric (the `metrics` dict restricted to `T`). -/
def metrics1 : List Metric := [⟨"T", "temp_outdoor__degC", mkRat 1 10⟩]

/-- An honest server: any requested chunk `[a, b]` answers with one
observation stamped at the chunk's first hour (day `a`, 00:00 UTC). -/
def c1server : Server := fun a b =>
  if a ≤ b then .parsed ⟨["T"], [⟨1440 * a, 52, 5, [some 5]⟩]⟩ else .parsed ⟨[], []⟩

/-- Interval used against `c1server`: 12:00-13:00 UTC on 1970-01-04
(day 3, a Sunday, so the chunk grid starts on that very day). -/
def c1itv : KInterval := ⟨5040, 5100⟩

/-- A server whose first 4-week chunk (days 3-30) parses into one
observation and whose second chunk raises `ParserError`. -/
def c2server : Server := fun a _ =>
  if a = 3 then .parsed ⟨["T"], [⟨4320, 52, 5, [some 5]⟩]⟩ else .parserError

/-- A 41-day interval (1970-01-04 to 1970-02-13) spanning exactly two
4-week chunks. -/
def c2itv : KInterval := ⟨4320, 61920⟩

/-- All rows of a frame are stamped within `[lo, hi]`. -/
def tsWithin (lo hi : Int) (f : KFrame) : Prop :=
  ∀ r ∈ f.rows, lo ≤ r.ts ∧ r.ts ≤ hi

/-- Invariant of the chunk loop: both accumulated frames (`df_weather`
and the last `df_weather_chunk`) stay stamped within the whole-day
window `[start_date, end_date + 23 h]`. -/
def AccOK (start_date end_date : Int) (acc : FetchAcc) : Prop :=
  ∀ dfW dfC, acc.res = .ok (dfW, dfC) →
    tsWithin start_date (end_date + 1380) dfW ∧ tsWithin start_date (end_date + 1380) dfC

def c8rbf : RbfOracle := fun _ _ => mkRat 1 3

def c8frame : KFrame := ⟨["T"], [⟨0, 52, 5, [some 5]⟩]⟩

def c8val : ℚ := mkRat 11184811 33554432

/-! ### Supporting lemmas -/

theorem mem_insertStable {α : Type} (le : α → α → Bool) (s : List α) (x a : α) :
    a ∈ insertStable le s x ↔ a ∈ s ∨ a = x := by
  induction s with
  | nil => simp [insertStable]
  | cons y ys ih =>
      simp only [insertStable]
      by_cases h : le y x = true
      · simp only [if_pos h, List.mem_cons, ih]
        tauto
      · simp only [if_neg h, List.mem_cons]
        tauto

theorem mem_sortStable_aux {α : Type} (le : α → α → Bool) (l : List α) (a : α) :
    ∀ acc : List α, (a ∈ l.foldl (insertStable le) acc ↔ a ∈ acc ∨ a ∈ l) := by
  induction l with
  | nil => intro acc; simp
  | cons x xs ih =>
      intro acc
      simp only [List.foldl_cons, ih, mem_insertStable, List.mem_cons]
      tauto

theorem mem_sortStable {α : Type} (le : α → α → Bool) (l : List α) (a : α) :
    a ∈ sortStable le l ↔ a ∈ l := by
  simpa [sortStable] using mem_sortStable_aux le l a []

theorem mem_dedupFirst_aux {α : Type} [DecidableEq α] (l : List α) (a : α) :
    ∀ acc : List α,
      (a ∈ l.foldl (fun acc x => if x ∈ acc then acc else acc ++ [x]) acc
        ↔ a ∈ acc ∨ a ∈ l) := by
  induction l with
  | nil => intro acc; simp
  | cons x xs ih =>
      intro acc
      simp only [List.foldl_cons]
      by_cases hx : x ∈ acc
      · rw [if_pos hx, ih]
        simp only [List.mem_cons]
        constructor
        · tauto
        · rintro (h | h | h)
          · tauto
          · subst h; tauto
          · tauto
      · rw [if_neg hx, ih]
        simp only [List.mem_append, List.mem_singleton, List.mem_cons]
        tauto

theorem mem_dedupFirst {α : Type} [DecidableEq α] (l : List α) (a : α) :
    a ∈ dedupFirst l ↔ a ∈ l := by
  simpa [dedupFirst] using mem_dedupFirst_aux l a []

theorem setCol_ts (f : KFrame) (c : String) (g : KRow → Option ℚ) :
    (setCol f c g).rows.map KRow.ts = f.rows.map KRow.ts := by
  unfold setCol
  cases f.cols.findIdx? (· = c) <;> simp [List.map_map, Function.comp]

theorem renameFold_ts (metrics : List Metric) (f : KFrame) :
    ((metrics.foldl
      (fun acc m =>
        if acc.cols.contains m.code then
          setCol acc m.outName (fun r => (rowGet acc.cols r m.code).map (fun v => qMul v m.factor))
        else acc) f).rows.map KRow.ts) = f.rows.map KRow.ts := by
  induction metrics generalizing f with
  | nil => rfl
  | cons m ms ih =>
      rw [List.foldl_cons]
      by_cases h : f.cols.contains m.code
      · rw [if_pos h, ih, setCol_ts]
      · rw [if_neg h, ih]

theorem dropCols_ts (f : KFrame) (cs : List String) (f' : KFrame)
    (h : dropCols f cs = .ok f') : f'.rows.map KRow.ts = f.rows.map KRow.ts := by
  unfold dropCols at h
  by_cases hall : cs.all (fun c => f.cols.contains c)
  · rw [if_pos hall] at h
    cases h
    simp [List.map_map, Function.comp]
  · rw [if_neg hall] at h
    cases h

theorem renameMetrics_ts (metrics : List Metric) (f f' : KFrame)
    (h : renameMetrics metrics f = .ok f') :
    f'.rows.map KRow.ts = f.rows.map KRow.ts := by
  unfold renameMetrics at h
  rw [dropCols_ts _ _ _ h, renameFold_ts]

theorem concatF_ts (f g : KFrame) :
    (concatF f g).rows.map KRow.ts = f.rows.map KRow.ts ++ g.rows.map KRow.ts := by
  unfold concatF alignRow
  simp only [List.map_append, List.map_map]
  rfl

theorem tsWithin_of_map_eq (lo hi : Int) (f f' : KFrame)
    (hmap : f'.rows.map KRow.ts = f.rows.map KRow.ts)
    (h : tsWithin lo hi f) : tsWithin lo hi f' := by
  intro r hr
  have hm : r.ts ∈ f'.rows.map KRow.ts := List.mem_map_of_mem _ hr
  rw [hmap] at hm
  obtain ⟨q, hq, he⟩ := List.mem_map.mp hm
  rw [← he]
  exact h q hq

theorem tsWithin_concat (lo hi : Int) (f g : KFrame)
    (hf : tsWithin lo hi f) (hg : tsWithin lo hi g) : tsWithin lo hi (concatF f g) := by
  intro r hr
  have hm : r.ts ∈ (concatF f g).rows.map KRow.ts := List.mem_map_of_mem _ hr
  rw [concatF_ts] at hm
  rcases List.mem_append.mp hm with h | h <;>
    · obtain ⟨q, hq, he⟩ := List.mem_map.mp h
      rw [← he]
      first
        | exact hf q hq
        | exact hg q hq

theorem finalFormat_sub (f : KFrame) (r : KRow) (hr : r ∈ (finalFormat f).rows) :
    r ∈ f.rows := by
  unfold finalFormat at hr
  rw [mem_sortStable, mem_dedupFirst] at hr
  exact (List.mem_filter.mp hr).1

theorem dateRange4W_mem (a b g : Int) (hg : g ∈ dateRange4W a b) :
    g ≤ b ∧ (1440 : Int) ∣ g := by
  unfold dateRange4W at hg
  dsimp only at hg
  split at hg
  · cases hg
  · obtain ⟨k, hk, he⟩ := List.mem_map.mp hg
    rw [List.mem_range] at hk
    omega

theorem fetchGrid_dvd (start_date end_date g : Int)
    (hg : g ∈ fetchGrid start_date end_date) : (1440 : Int) ∣ g := by
  unfold fetchGrid at hg
  dsimp only at hg
  exact (dateRange4W_mem _ _ _ hg).2

theorem fetchStep_AccOK (server : Server) (metrics : List Metric)
    (start_date end_date : Int)
    (hserver : ∀ a b f, server a b = .parsed f →
      ∀ r ∈ f.rows, 1440 * a ≤ r.ts ∧ r.ts ≤ 1440 * b + 1380)
    (hsd : (1440 : Int) ∣ start_date)
    (g : Int) (hgd : (1440 : Int) ∣ g)
    (acc : FetchAcc) (hacc : AccOK start_date end_date acc) :
    AccOK start_date end_date (fetchStep server metrics start_date end_date acc g) := by
  unfold fetchStep
  cases hres : acc.res with
  | error e => exact hacc
  | ok dfs =>
      obtain ⟨dfW, dfC⟩ := dfs
      obtain ⟨hW, hC⟩ := hacc dfW dfC hres
      dsimp only
      have key1 : start_date ≤ 1440 * (max start_date g / 1440) := by
        rcases le_total start_date g with h | h
        · rw [max_eq_right h]; omega
        · rw [max_eq_left h]; omega
      have key2 : 1440 * (min end_date (g + 40320 - 1) / 1440) ≤ end_date := by
        rcases le_total end_date (g + 40320 - 1) with h | h
        · rw [min_eq_left h]; omega
        · rw [min_eq_right h]; omega
      cases hs : server (max start_date g / 1440) (min end_date (g + 40320 - 1) / 1440) with
      | networkError =>
          intro dfW' dfC' h
          exact Except.noConfusion h
      | parserError =>
          dsimp only
          by_cases hemp : dfC.rows.isEmpty
          · rw [if_pos hemp]
            intro dfW' dfC' h
            injection h with h1
            injection h1 with h2 h3
            subst h2; subst h3
            exact ⟨hW, hC⟩
          · rw [if_neg hemp]
            cases hrn : renameMetrics metrics dfC with
            | error e =>
                intro dfW' dfC' h
                exact Except.noConfusion h
            | ok chunk =>
                have hch : tsWithin start_date (end_date + 1380) chunk :=
                  tsWithin_of_map_eq _ _ _ _ (renameMetrics_ts metrics dfC chunk hrn) hC
                intro dfW' dfC' h
                injection h with h1
                injection h1 with h2 h3
                subst h2; subst h3
                exact ⟨tsWithin_concat _ _ _ _ hW hch, hch⟩
      | parsed fr =>
          have hfr : tsWithin start_date (end_date + 1380) fr := by
            intro r hr
            have := hserver _ _ fr hs r hr
            constructor <;> omega
          dsimp only
          by_cases hemp : fr.rows.isEmpty
          · rw [if_pos hemp]
            intro dfW' dfC' h
            injection h with h1
            injection h1 with h2 h3
            subst h2; subst h3
            exact ⟨hW, hfr⟩
          · rw [if_neg hemp]
            cases hrn : renameMetrics metrics fr with
            | error e =>
                intro dfW' dfC' h
                exact Except.noConfusion h
            | ok chunk =>
                have hch : tsWithin start_date (end_date + 1380) chunk :=
                  tsWithin_of_map_eq _ _ _ _ (renameMetrics_ts metrics fr chunk hrn) hfr
                intro dfW' dfC' h
                injection h with h1
                injection h1 with h2 h3
                subst h2; subst h3
                exact ⟨tsWithin_concat _ _ _ _ hW hch, hch⟩

theorem fetchLoop_AccOK (server : Server) (metrics : List Metric)
    (start_date end_date : Int)
    (hserver : ∀ a b f, server a b = .parsed f →
      ∀ r ∈ f.rows, 1440 * a ≤ r.ts ∧ r.ts ≤ 1440 * b + 1380)
    (hsd : (1440 : Int) ∣ start_date)
    (grid : List Int) (hgrid : ∀ g ∈ grid, (1440 : Int) ∣ g) :
    AccOK start_date end_date (fetchLoop server metrics start_date end_date grid) := by
  unfold fetchLoop
  have init : AccOK start_date end_date ⟨.ok (emptyKFrame, emptyKFrame), []⟩ := by
    intro dfW dfC h
    injection h with h1
    injection h1 with h2 h3
    subst h2; subst h3
    exact ⟨fun r hr => absurd hr (List.not_mem_nil r), fun r hr => absurd hr (List.not_mem_nil r)⟩
  revert init
  generalize (⟨Except.ok (emptyKFrame, emptyKFrame), []⟩ : FetchAcc) = acc
  revert acc
  induction grid with
  | nil => intro acc h; exact h
  | cons g gs ih =>
      intro acc h
      rw [List.foldl_cons]
      exact ih (fun q hq => hgrid q (List.mem_cons_of_mem g hq))
        (fetchStep server metrics start_date end_date acc g)
        (fetchStep_AccOK server metrics start_date end_date hserver hsd g
          (hgrid g (List.mem_cons_self g gs)) acc h)

/-- `c1server` honestly answers each chunk request within its span. -/
theorem c1server_honest : ∀ a b f, c1server a b = .parsed f →
    ∀ r ∈ f.rows, 1440 * a ≤ r.ts ∧ r.ts ≤ 1440 * b + 1380 := by
  intro a b f hf r hr
  unfold c1server at hf
  split at hf
  · injection hf with h1
    rw [← h1] at hr
    simp only [List.mem_singleton] at hr
    subst hr
    dsimp only
    constructor <;> omega
  · injection hf with h1
    rw [← h1] at hr
    cases hr

theorem qOfInt_eq (n : Int) : qOfInt n = (n : ℚ) := by
  unfold qOfInt
  rw [Rat.mkRat_eq_div]
  norm_num

theorem qMul_eq (a b : ℚ) : qMul a b = a * b := by
  unfold qMul
  rw [Rat.mkRat_eq_div]
  push_cast
  rw [← div_mul_div_comm, Rat.num_div_den, Rat.num_div_den]

theorem qNeg_eq (x : ℚ) : qNeg x = -x := by
  unfold qNeg
  rw [Rat.mkRat_eq_div]
  push_cast
  rw [neg_div, Rat.num_div_den]

theorem qAbs_eq (x : ℚ) : qAbs x = |x| := by
  unfold qAbs
  split
  case isTrue h =>
    have hx : x < 0 := by
      by_contra hc
      push_neg at hc
      exact absurd (Rat.num_nonneg.mpr hc) (by omega)
    rw [qNeg_eq, abs_of_neg hx]
  case isFalse h =>
    have hx : 0 ≤ x := Rat.num_nonneg.mp (by omega)
    rw [abs_of_nonneg hx]

theorem qpow2_eq (k : Int) : qpow2 k = (2 : ℚ) ^ k := by
  unfold qpow2
  split
  · rw [Rat.mkRat_eq_div]
    push_cast
    rw [div_one, ← zpow_natCast]
    congr 1
    omega
  · rw [Rat.mkRat_eq_div]
    push_cast
    rw [one_div, ← zpow_natCast, ← zpow_neg]
    congr 1
    omega

theorem qRoundHalfEven_bounds (z : ℚ) :
    (qRoundHalfEven z : ℚ) ≤ z + 1/2 ∧ z - 1/2 ≤ (qRoundHalfEven z : ℚ) := by
  unfold qRoundHalfEven
  dsimp only
  set N := z.num with hNd
  set D := (z.den : Int) with hDd
  have hd : (0 : Int) < D := by rw [hDd]; exact_mod_cast z.pos
  have hnd : D * (N / D) + N % D = N := Int.ediv_add_emod N D
  have hr0 : 0 ≤ N % D := Int.emod_nonneg N (by omega)
  have hr1 : N % D < D := Int.emod_lt_of_pos N hd
  have hz : z = (N : ℚ) / (D : ℚ) := by
    rw [hNd, hDd]
    push_cast
    rw [Rat.num_div_den]
  have hdQ : (0 : ℚ) < (D : ℚ) := by exact_mod_cast hd
  have hndQ : (D : ℚ) * ((N / D : Int) : ℚ) + ((N % D : Int) : ℚ) = (N : ℚ) := by
    exact_mod_cast hnd
  have hr0Q : (0 : ℚ) ≤ ((N % D : Int) : ℚ) := by exact_mod_cast hr0
  have hr1Q : ((N % D : Int) : ℚ) < (D : ℚ) := by exact_mod_cast hr1
  rw [hz]
  split
  case isTrue hc =>
    have hcQ : 2 * ((N % D : Int) : ℚ) < (D : ℚ) := by exact_mod_cast hc
    constructor
    · rw [← sub_le_iff_le_add, le_div_iff₀ hdQ]
      nlinarith
    · rw [sub_le_iff_le_add, div_le_iff₀ hdQ]
      nlinarith
  case isFalse hc =>
    split
    case isTrue hc2 =>
      have hcQ : (D : ℚ) < 2 * ((N % D : Int) : ℚ) := by exact_mod_cast hc2
      constructor
      · rw [← sub_le_iff_le_add, le_div_iff₀ hdQ]
        push_cast
        nlinarith
      · rw [sub_le_iff_le_add, div_le_iff₀ hdQ]
        push_cast
        nlinarith
    case isFalse hc2 =>
      have hcQ : 2 * ((N % D : Int) : ℚ) = (D : ℚ) := by
        exact_mod_cast (by omega : 2 * (N % D) = D)
      split <;>
        · constructor
          · rw [← sub_le_iff_le_add, le_div_iff₀ hdQ]
            push_cast
            nlinarith
          · rw [sub_le_iff_le_add, div_le_iff₀ hdQ]
            push_cast
            nlinarith

theorem qRoundHalfEven_intCast (k : Int) : qRoundHalfEven ((k : ℚ)) = k := by
  unfold qRoundHalfEven
  dsimp only
  rw [Rat.num_intCast, Rat.den_intCast]
  norm_num

theorem log2F_spec : ∀ fuel n, 1 ≤ n → n ≤ fuel →
    2 ^ log2F fuel n ≤ n ∧ n < 2 ^ (log2F fuel n + 1) := by
  intro fuel
  induction fuel with
  | zero => intro n h1 h2; omega
  | succ fuel ih =>
      intro n h1 h2
      unfold log2F
      by_cases hn : 2 ≤ n
      · rw [if_pos hn]
        have hrec := ih (n / 2) (by omega) (by omega)
        obtain ⟨hl, hu⟩ := hrec
        have e1 : (2 : Nat) ^ (log2F fuel (n / 2) + 1) = 2 ^ log2F fuel (n / 2) * 2 :=
          pow_succ 2 _
        have e2 : (2 : Nat) ^ (log2F fuel (n / 2) + 1 + 1) = 2 ^ (log2F fuel (n / 2) + 1) * 2 :=
          pow_succ 2 _
        omega
      · rw [if_neg hn]
        simp only [pow_zero, pow_one]
        omega

theorem natLog2_spec (n : Nat) (h : 1 ≤ n) :
    2 ^ natLog2 n ≤ n ∧ n < 2 ^ (natLog2 n + 1) :=
  log2F_spec n n h le_rfl

theorem qpow2_pos (k : Int) : 0 < qpow2 k := by
  rw [qpow2_eq]
  positivity

theorem qFloorLog2_spec (x : ℚ) (hx : 0 < x) :
    qpow2 (qFloorLog2 x) ≤ x ∧ x < qpow2 (qFloorLog2 x + 1) := by
  have hnum : 0 < x.num := Rat.num_pos.mpr hx
  set a := x.num.natAbs with had
  set b := x.den with hbd
  have ha1 : 1 ≤ a := by rw [had]; omega
  have hb1 : 1 ≤ b := x.pos
  obtain ⟨hal, hau⟩ := natLog2_spec a ha1
  obtain ⟨hbl, hbu⟩ := natLog2_spec b hb1
  have hxab : x = (a : ℚ) / (b : ℚ) := by
    rw [had, hbd]
    have hcast : ((x.num.natAbs : ℕ) : ℚ) = ((x.num : ℤ) : ℚ) := by
      rw [Int.cast_natAbs, abs_of_nonneg]
      exact_mod_cast le_of_lt hnum
    rw [hcast]
    rw [Rat.num_div_den]
  have hbQ : (0 : ℚ) < (b : ℚ) := by exact_mod_cast hb1
  -- cast the four natLog2 bounds to ℚ with integer (zpow) exponents
  have hcastp : ∀ m : Nat, ((2 ^ m : Nat) : ℚ) = (2 : ℚ) ^ (m : Int) := by
    intro m
    push_cast
    rw [← zpow_natCast]
  have halQ : (2 : ℚ) ^ ((natLog2 a : Nat) : Int) ≤ (a : ℚ) := by
    rw [← hcastp]; exact_mod_cast hal
  have hauQ : (a : ℚ) < (2 : ℚ) ^ ((natLog2 a + 1 : Nat) : Int) := by
    rw [← hcastp]; exact_mod_cast hau
  have hblQ : (2 : ℚ) ^ ((natLog2 b : Nat) : Int) ≤ (b : ℚ) := by
    rw [← hcastp]; exact_mod_cast hbl
  have hbuQ : (b : ℚ) < (2 : ℚ) ^ ((natLog2 b + 1 : Nat) : Int) := by
    rw [← hcastp]; exact_mod_cast hbu
  have h2ne : (2 : ℚ) ≠ 0 := by norm_num
  have hupper : x < (2 : ℚ) ^ ((natLog2 a : Int) - (natLog2 b : Int) + 1) := by
    rw [hxab, div_lt_iff₀ hbQ]
    calc (a : ℚ) < (2 : ℚ) ^ ((natLog2 a + 1 : Nat) : Int) := hauQ
      _ = (2 : ℚ) ^ (((natLog2 a : Int) - (natLog2 b : Int) + 1) + (natLog2 b : Int)) := by
          congr 1
          push_cast
          ring
      _ = (2 : ℚ) ^ ((natLog2 a : Int) - (natLog2 b : Int) + 1) *
            (2 : ℚ) ^ ((natLog2 b : Nat) : Int) := by
          rw [← zpow_add₀ h2ne]
      _ ≤ (2 : ℚ) ^ ((natLog2 a : Int) - (natLog2 b : Int) + 1) * (b : ℚ) := by
          apply mul_le_mul_of_nonneg_left hblQ
          positivity
  have hlower : (2 : ℚ) ^ ((natLog2 a : Int) - (natLog2 b : Int) - 1) ≤ x := by
    rw [hxab, le_div_iff₀ hbQ]
    refine le_of_lt ?_
    calc (2 : ℚ) ^ ((natLog2 a : Int) - (natLog2 b : Int) - 1) * (b : ℚ)
        < (2 : ℚ) ^ ((natLog2 a : Int) - (natLog2 b : Int) - 1) *
            (2 : ℚ) ^ ((natLog2 b + 1 : Nat) : Int) := by
          apply mul_lt_mul_of_pos_left hbuQ
          positivity
      _ = (2 : ℚ) ^ (((natLog2 a : Int) - (natLog2 b : Int) - 1) + ((natLog2 b : Int) + 1)) := by
          rw [zpow_add₀ h2ne]
          norm_cast
      _ = (2 : ℚ) ^ ((natLog2 a : Nat) : Int) := by
          congr 1
          ring
      _ ≤ (a : ℚ) := halQ
  unfold qFloorLog2
  dsimp only
  rw [← had, ← hbd]
  split
  case isTrue hc =>
    refine ⟨hc, ?_⟩
    rw [qpow2_eq]
    exact hupper
  case isFalse hc =>
    constructor
    · rw [qpow2_eq]
      exact hlower
    · rw [qpow2_eq]
      have := not_le.mp hc
      rw [qpow2_eq] at this
      calc x < (2:ℚ) ^ ((natLog2 a : Int) - (natLog2 b : Int)) := this
        _ = (2:ℚ) ^ ((natLog2 a : Int) - (natLog2 b : Int) - 1 + 1) := by congr 1; ring

theorem qpow2_le_qpow2 {k m : Int} (h : k ≤ m) : qpow2 k ≤ qpow2 m := by
  rw [qpow2_eq, qpow2_eq]
  exact zpow_le_zpow_right₀ (by norm_num) h

theorem qFloorLog2_unique (x : ℚ) (hx : 0 < x) (k : Int)
    (hl : qpow2 k ≤ x) (hu : x < qpow2 (k + 1)) : qFloorLog2 x = k := by
  obtain ⟨hl0, hu0⟩ := qFloorLog2_spec x hx
  by_contra hne
  rcases lt_or_gt_of_ne hne with h | h
  · have hmono : qpow2 (qFloorLog2 x + 1) ≤ qpow2 k := qpow2_le_qpow2 (by omega)
    linarith
  · have hmono : qpow2 (k + 1) ≤ qpow2 (qFloorLog2 x) := qpow2_le_qpow2 (by omega)
    linarith

theorem roundF32_eq (x : ℚ) (hx : x ≠ 0) :
    roundF32 x =
      ((qRoundHalfEven (x * (2 : ℚ) ^ (-(f32ulpExp x))) : Int) : ℚ) *
        (2 : ℚ) ^ (f32ulpExp x) := by
  unfold roundF32
  rw [if_neg (Rat.num_ne_zero.mpr hx)]
  simp only [qMul_eq, qOfInt_eq, qpow2_eq]

theorem roundF32_fixed (m q : Int) (hm : m ≠ 0)
    (hulp : f32ulpExp ((m : ℚ) * (2 : ℚ) ^ q) = q) :
    roundF32 ((m : ℚ) * (2 : ℚ) ^ q) = (m : ℚ) * (2 : ℚ) ^ q := by
  have hmQ : ((m : Int) : ℚ) ≠ 0 := Int.cast_ne_zero.mpr hm
  have hx : (m : ℚ) * (2 : ℚ) ^ q ≠ 0 := mul_ne_zero hmQ (by positivity)
  rw [roundF32_eq _ hx, hulp]
  have hcancel : (m : ℚ) * (2 : ℚ) ^ q * (2 : ℚ) ^ (-q) = (m : ℚ) := by
    rw [mul_assoc, ← zpow_add₀ (by norm_num : (2 : ℚ) ≠ 0)]
    simp
  rw [hcancel, qRoundHalfEven_intCast]

theorem qRoundHalfEven_abs (z : ℚ) :
    |z| - 1/2 ≤ |((qRoundHalfEven z : Int) : ℚ)| ∧
      |((qRoundHalfEven z : Int) : ℚ)| ≤ |z| + 1/2 := by
  obtain ⟨h1, h2⟩ := qRoundHalfEven_bounds z
  have ha1 := le_abs_self z
  have ha2 := neg_abs_le z
  have hb1 := le_abs_self ((qRoundHalfEven z : Int) : ℚ)
  have hb2 := neg_abs_le ((qRoundHalfEven z : Int) : ℚ)
  constructor
  · rcases abs_cases z with ⟨hz, _⟩ | ⟨hz, _⟩
    · linarith
    · linarith
  · rw [abs_le]
    constructor <;> linarith

theorem f32ulpExp_form (m q : Int) (h1 : 8388608 ≤ |m|) (h2 : |m| < 16777216)
    (hq : -149 ≤ q) : f32ulpExp ((m : ℚ) * (2 : ℚ) ^ q) = q := by
  have hm0 : m ≠ 0 := by
    intro hc
    rw [hc] at h1
    norm_num at h1
  have hx0 : (m : ℚ) * (2 : ℚ) ^ q ≠ 0 :=
    mul_ne_zero (Int.cast_ne_zero.mpr hm0) (by positivity)
  have h2ne : (2 : ℚ) ≠ 0 := by norm_num
  have habs : |(m : ℚ) * (2 : ℚ) ^ q| = ((|m| : Int) : ℚ) * (2 : ℚ) ^ q := by
    rw [abs_mul, abs_of_pos (by positivity : (0 : ℚ) < (2 : ℚ) ^ q), Int.cast_abs]
  have h1Q : (2 : ℚ) ^ (23 : Int) ≤ ((|m| : Int) : ℚ) := by
    have h := (by exact_mod_cast h1 : ((8388608 : Int) : ℚ) ≤ ((|m| : Int) : ℚ))
    calc (2 : ℚ) ^ (23 : Int) = ((8388608 : Int) : ℚ) := by norm_num
      _ ≤ _ := h
  have h2Q : ((|m| : Int) : ℚ) < (2 : ℚ) ^ (24 : Int) := by
    have h := (by exact_mod_cast h2 : ((|m| : Int) : ℚ) < ((16777216 : Int) : ℚ))
    calc ((|m| : Int) : ℚ) < ((16777216 : Int) : ℚ) := h
      _ = (2 : ℚ) ^ (24 : Int) := by norm_num
  have hfl : qFloorLog2 |(m : ℚ) * (2 : ℚ) ^ q| = q + 23 := by
    refine qFloorLog2_unique _ (abs_pos.mpr hx0) (q + 23) ?_ ?_
    · rw [qpow2_eq, habs]
      calc (2 : ℚ) ^ (q + 23) = (2 : ℚ) ^ (23 : Int) * (2 : ℚ) ^ q := by
            rw [← zpow_add₀ h2ne]
            congr 1
            ring
        _ ≤ ((|m| : Int) : ℚ) * (2 : ℚ) ^ q := by
            apply mul_le_mul_of_nonneg_right h1Q (by positivity)
    · rw [qpow2_eq, habs]
      calc ((|m| : Int) : ℚ) * (2 : ℚ) ^ q < (2 : ℚ) ^ (24 : Int) * (2 : ℚ) ^ q := by
            apply mul_lt_mul_of_pos_right h2Q (by positivity)
        _ = (2 : ℚ) ^ (q + 23 + 1) := by
            rw [← zpow_add₀ h2ne]
            congr 1
            ring
  unfold f32ulpExp
  rw [qAbs_eq, hfl]
  omega

theorem f32ulpExp_small (m : Int) (hm : m ≠ 0) (h2 : |m| < 8388608) :
    f32ulpExp ((m : ℚ) * (2 : ℚ) ^ (-149 : Int)) = -149 := by
  have hx0 : (m : ℚ) * (2 : ℚ) ^ (-149 : Int) ≠ 0 :=
    mul_ne_zero (Int.cast_ne_zero.mpr hm) (by positivity)
  have h2ne : (2 : ℚ) ≠ 0 := by norm_num
  have habs : |(m : ℚ) * (2 : ℚ) ^ (-149 : Int)| =
      ((|m| : Int) : ℚ) * (2 : ℚ) ^ (-149 : Int) := by
    rw [abs_mul, abs_of_pos (by positivity : (0 : ℚ) < (2 : ℚ) ^ (-149 : Int)),
      Int.cast_abs]
  have h2Q : ((|m| : Int) : ℚ) < (2 : ℚ) ^ (23 : Int) := by
    have h := (by exact_mod_cast h2 : ((|m| : Int) : ℚ) < ((8388608 : Int) : ℚ))
    calc ((|m| : Int) : ℚ) < ((8388608 : Int) : ℚ) := h
      _ = (2 : ℚ) ^ (23 : Int) := by norm_num
  have hsmall : |(m : ℚ) * (2 : ℚ) ^ (-149 : Int)| < qpow2 (-126) := by
    rw [qpow2_eq, habs]
    calc ((|m| : Int) : ℚ) * (2 : ℚ) ^ (-149 : Int)
        < (2 : ℚ) ^ (23 : Int) * (2 : ℚ) ^ (-149 : Int) := by
          apply mul_lt_mul_of_pos_right h2Q (by positivity)
      _ = (2 : ℚ) ^ (-126 : Int) := by
          rw [← zpow_add₀ h2ne]
          norm_num
  have hfl : qFloorLog2 |(m : ℚ) * (2 : ℚ) ^ (-149 : Int)| ≤ -127 := by
    by_contra hc
    push_neg at hc
    have hge : (-126 : Int) ≤ qFloorLog2 |(m : ℚ) * (2 : ℚ) ^ (-149 : Int)| := by omega
    have hmono := qpow2_le_qpow2 hge
    obtain ⟨hl0, _⟩ := qFloorLog2_spec _ (abs_pos.mpr hx0)
    linarith
  unfold f32ulpExp
  rw [qAbs_eq]
  omega

theorem roundF32_idem (x : ℚ) : roundF32 (roundF32 x) = roundF32 x := by
  by_cases hx0 : x.num = 0
  · have h0 : roundF32 x = 0 := by
      unfold roundF32
      rw [if_pos hx0]
    rw [h0]
    unfold roundF32
    rw [if_pos (by decide : (0 : ℚ).num = 0)]
  · have hx : x ≠ 0 := Rat.num_ne_zero.mp hx0
    have h2ne : (2 : ℚ) ≠ 0 := by norm_num
    have hy := roundF32_eq x hx
    obtain ⟨hml, hmu⟩ := qRoundHalfEven_abs (x * (2 : ℚ) ^ (-(f32ulpExp x)))
    obtain ⟨hfl1, hfl2⟩ := qFloorLog2_spec |x| (abs_pos.mpr hx)
    rw [qpow2_eq] at hfl1
    rw [qpow2_eq] at hfl2
    set e := f32ulpExp x with he
    set m := qRoundHalfEven (x * (2 : ℚ) ^ (-e)) with hmdef
    set fl := qFloorLog2 |x| with hfld
    have heq : e = max (fl - 23) (-149) := by
      rw [he, hfld]
      unfold f32ulpExp
      rw [qAbs_eq]
    have hefl : fl - 23 ≤ e := by
      rw [heq]
      exact le_max_left _ _
    have he149 : (-149 : Int) ≤ e := by
      rw [heq]
      exact le_max_right _ _
    have habsz : |x * (2 : ℚ) ^ (-e)| = |x| * (2 : ℚ) ^ (-e) := by
      rw [abs_mul, abs_of_pos (by positivity : (0 : ℚ) < (2 : ℚ) ^ (-e))]
    have hz24 : |x * (2 : ℚ) ^ (-e)| < (2 : ℚ) ^ (24 : Int) := by
      rw [habsz]
      calc |x| * (2 : ℚ) ^ (-e) ≤ |x| * (2 : ℚ) ^ (23 - fl) := by
            apply mul_le_mul_of_nonneg_left _ (abs_nonneg x)
            apply zpow_le_zpow_right₀ (by norm_num)
            omega
        _ < (2 : ℚ) ^ (fl + 1) * (2 : ℚ) ^ (23 - fl) := by
            apply mul_lt_mul_of_pos_right hfl2 (by positivity)
        _ = (2 : ℚ) ^ (24 : Int) := by
            rw [← zpow_add₀ h2ne]
            congr 1
            ring
    have hm24 : |m| ≤ 16777216 := by
      have hcast : ((|m| : Int) : ℚ) < ((16777217 : Int) : ℚ) := by
        rw [Int.cast_abs]
        calc |((m : Int) : ℚ)| ≤ |x * (2 : ℚ) ^ (-e)| + 1/2 := hmu
          _ < (2 : ℚ) ^ (24 : Int) + 1 := by linarith
          _ = ((16777217 : Int) : ℚ) := by norm_num
      have h := (by exact_mod_cast hcast : |m| < 16777217)
      omega
    by_cases hm0 : m = 0
    · have hy0 : roundF32 x = 0 := by
        rw [hy, hm0]
        norm_num
      rw [hy0]
      unfold roundF32
      rw [if_pos (by decide : (0 : ℚ).num = 0)]
    · rcases lt_or_ge (|m|) 8388608 with hsmall | hbig
      · -- subnormal branch: the ulp exponent must already be the minimum -149
        have hE : e = -149 := by
          by_contra hne
          have hE' : e = fl - 23 := by
            rcases max_cases (fl - 23) (-149 : Int) with ⟨h1, _⟩ | ⟨h1, _⟩
            · rw [heq, h1]
            · exact absurd (heq.trans h1) hne
          have hzge : (2 : ℚ) ^ (23 : Int) ≤ |x * (2 : ℚ) ^ (-e)| := by
            rw [habsz]
            calc (2 : ℚ) ^ (23 : Int) = (2 : ℚ) ^ fl * (2 : ℚ) ^ (-e) := by
                  rw [← zpow_add₀ h2ne]
                  congr 1
                  omega
              _ ≤ |x| * (2 : ℚ) ^ (-e) := by
                  apply mul_le_mul_of_nonneg_right hfl1 (by positivity)
          have hcast : ((8388607 : Int) : ℚ) < ((|m| : Int) : ℚ) := by
            rw [Int.cast_abs]
            calc ((8388607 : Int) : ℚ) < (2 : ℚ) ^ (23 : Int) - 1/2 := by norm_num
              _ ≤ |x * (2 : ℚ) ^ (-e)| - 1/2 := by linarith
              _ ≤ |((m : Int) : ℚ)| := hml
          have h := (by exact_mod_cast hcast : (8388607 : Int) < |m|)
          omega
        rw [hy, hE]
        exact roundF32_fixed m (-149) hm0 (f32ulpExp_small m hm0 hsmall)
      · rcases lt_or_eq_of_le hm24 with hlt | hA
        · -- normal branch: mantissa strictly below 2^24, same exponent is kept
          rw [hy]
          exact roundF32_fixed m e hm0 (f32ulpExp_form m e hbig hlt he149)
        · -- carry branch: mantissa 2^24, shift to mantissa 2^23 and exponent e+1
          have hm_or : m = 16777216 ∨ m = -16777216 := by
            rcases abs_cases m with ⟨h1, _⟩ | ⟨h1, _⟩ <;> omega
          have hmeven : m = 2 * (m / 2) := by omega
          have habs2 : |m / 2| = 8388608 := by
            rcases hm_or with h | h <;> rw [h] <;> decide
          have hyA : (m : ℚ) * (2 : ℚ) ^ e = ((m / 2 : Int) : ℚ) * (2 : ℚ) ^ (e + 1) := by
            calc (m : ℚ) * (2 : ℚ) ^ e = (((2 * (m / 2) : Int)) : ℚ) * (2 : ℚ) ^ e := by
                  rw [← hmeven]
              _ = ((m / 2 : Int) : ℚ) * (2 : ℚ) ^ (e + 1) := by
                  push_cast
                  rw [zpow_add₀ h2ne, zpow_one]
                  ring
          rw [hy, hyA]
          exact roundF32_fixed (m / 2) (e + 1) (by omega)
            (f32ulpExp_form (m / 2) (e + 1) (by omega) (by omega) (by omega))

/-! ### Claim theorems -/

/-- C1, counterexample: with a valid interval (12:00 ≤ 13:00 on day 3)
and a server honestly answering the issued request, the fetch returns a
row stamped 00:00 on day 3 — before `start`.  The claim that every
returned timestamp lies in `[start, end]` is false. -/
theorem C1_counterexample :
    (fetchRows c1server c1itv metrics1).map KRow.ts = [4320] ∧
      c1itv.left ≤ c1itv.right ∧ (4320 : Int) < c1itv.left := by
  refine ⟨by decide, by decide, by decide⟩

/-- C2: after a non-empty chunk, a chunk whose payload raises
`ParserError` leaves the previous chunk's already-renamed frame in
`df_weather_chunk`; re-processing it makes `drop(columns=...)` raise
`KeyError` instead of skipping the chunk and continuing.  This evaluates
the fetch at that failing input. -/
theorem C2_stale_chunk_keyerror :
    (fetch_weather_data c2server c2itv metrics1).1 = .error .keyError ∧
      (fetch_weather_data c2server c2itv metrics1).2 = [(3, 30), (31, 44)] := by
  refine ⟨by decide, by decide⟩

/-- C3: whenever `end < start`, both entry points (`DutchWeather.get_weather`
in `api.py` and `fetch_weather_data` in `knmi.py`) raise the invalid-interval
`ValueError` and the request log is empty — no chunk request is issued. -/
theorem C3_invalid_interval_no_request (server : Server) (start endT : Int)
    (metrics : List Metric) (h : endT < start) :
    DutchWeather.get_weather server start endT metrics = (.error .invalidInterval, []) ∧
      fetch_weather_data server ⟨start, endT⟩ metrics = (.error .invalidInterval, []) := by
  constructor
  · unfold DutchWeather.get_weather
    rw [if_pos h]
  · unfold fetch_weather_data
    rw [if_pos h]

/-- Witness for C3 at a concrete interval and server. -/
theorem C3_invalid_interval_no_request_witness :
    DutchWeather.get_weather c1server 10 5 metrics1 = (.error .invalidInterval, []) ∧
      fetch_weather_data c1server ⟨10, 5⟩ metrics1 = (.error .invalidInterval, []) :=
  C3_invalid_interval_no_request c1server 10 5 metrics1 (by decide)

/-- C4: the hourly series [10, 20, 30] for one metric, resampled to a
30-minute cadence, yields exactly [10, 15, 20, 25, 30] in timestamp
order. -/
theorem C4_halfhour_scenario :
    temporal_interpolate_weather_data
        [((0 : Int), ("temp", (10 : ℚ))), (60, ("temp", 20)), (120, ("temp", 30))] 30 =
      .ok [((0, "temp"), some 10), ((30, "temp"), some 15), ((60, "temp"), some 20),
        ((90, "temp"), some 25), ((120, "temp"), some 30)] := by
  decide

/-- C5: when the modal consecutive-timestamp delta of a metric's series
equals the requested cadence, the temporal interpolator passes the
series through unchanged: same timestamps, same values, same number of
rows. -/
theorem C5_identity_at_native_cadence (m : Int) (s : List (Int × ℚ))
    (h : listMode (diffsI (s.map Prod.fst)) = some m) :
    temporal_interpolate_one m s = .ok (s.map (fun p => (p.1, some p.2))) := by
  unfold temporal_interpolate_one
  rw [h]
  simp

/-- Witness for C5 on a two-point 15-minute series. -/
theorem C5_identity_at_native_cadence_witness :
    temporal_interpolate_one 15 [((0 : Int), (1 : ℚ)), (15, 2)] =
      .ok [(0, some 1), (15, some 2)] :=
  (C5_identity_at_native_cadence 15 [((0 : Int), (1 : ℚ)), (15, 2)] (by decide)).trans
    (by decide)

/-- C6: the alignment (upsampling) interval is `max(1, gcd(native,
requested))`; in particular native 60 with requested 15 gives a 15-minute
grid and native 10 with requested 15 gives a 5-minute grid, as the
first-stage resampling grids confirm. -/
theorem C6_alignment_gcd :
    (∀ n m : Int, upsample__min n m = max 1 (Int.gcd n m : Int)) ∧
      upsample__min 60 15 = 15 ∧ upsample__min 10 15 = 5 ∧
      (resampleFirst (upsample__min 60 15) [((0 : Int), (10 : ℚ)), (60, 20)]).map Prod.fst =
        [0, 15, 30, 45, 60] ∧
      (resampleFirst (upsample__min 10 15) [((0 : Int), (10 : ℚ)), (10, 20)]).map Prod.fst =
        [0, 5, 10] :=
  ⟨fun _ _ => rfl, by decide, by decide, by decide, by decide⟩

/-- A one-sample series makes the modal-interval computation index an
empty mode series: the per-metric loop body raises at once. -/
theorem temporal_one_singleton (m : Int) (a : Int × ℚ) :
    temporal_interpolate_one m [a] = .error .indexError := rfl

/-- An exception in any property's group propagates out of the
accumulation loop. -/
theorem collectResults_error (m : Int) (df : List (Int × String × ℚ))
    (ps : List String) (p : String) (hp : p ∈ ps)
    (he : temporal_interpolate_one m (seriesOf df p) = .error .indexError) :
    ∃ e, collectResults m df ps = .error e := by
  induction ps with
  | nil => cases hp
  | cons q qs ih =>
      unfold collectResults
      cases hq : temporal_interpolate_one m (seriesOf df q) with
      | error e => exact ⟨e, rfl⟩
      | ok rows =>
          rcases List.mem_cons.mp hp with h | h
          · subst h; rw [hq] at he; cases he
          · obtain ⟨e, hee⟩ := ih h
            rw [hee]
            exact ⟨e, rfl⟩

/-- A property with at least one row is one of the groupby keys. -/
theorem mem_groupProps (df : List (Int × String × ℚ)) (p : String)
    (hp : seriesOf df p ≠ []) : p ∈ groupProps df := by
  unfold groupProps
  rw [mem_sortStable, mem_dedupFirst]
  obtain ⟨a, ha⟩ := List.exists_mem_of_ne_nil _ hp
  unfold seriesOf at ha
  obtain ⟨r, hr, hre⟩ := List.mem_filterMap.mp ha
  by_cases hc : r.2.1 = p
  · exact List.mem_map.mpr ⟨r, hr, hc⟩
  · rw [if_neg hc] at hre; cases hre

/-- C9: when some metric's series holds exactly one sample, the temporal
interpolation raises the `IndexError` from indexing the mode of an empty
delta sequence — reject-by-exception, not pass-through. -/
theorem C9_single_sample_raises (df : List (Int × String × ℚ))
    (interpolate__min : Int) (p : String) (hp : (seriesOf df p).length = 1) :
    temporal_interpolate_weather_data df interpolate__min = .error .indexError := by
  obtain ⟨a, ha⟩ := List.length_eq_one.mp hp
  have hmem : p ∈ groupProps df := by
    apply mem_groupProps
    rw [ha]
    exact List.cons_ne_nil a []
  have herr : temporal_interpolate_one interpolate__min (seriesOf df p) =
      .error .indexError := by
    rw [ha]; exact temporal_one_singleton interpolate__min a
  obtain ⟨e, he⟩ := collectResults_error interpolate__min df (groupProps df) p hmem herr
  cases e
  unfold temporal_interpolate_weather_data
  rw [he]

/-- Witness for C9 on a one-row frame. -/
theorem C9_single_sample_raises_witness :
    temporal_interpolate_weather_data [((0 : Int), ("T", (5 : ℚ)))] 15 =
      .error .indexError :=
  C9_single_sample_raises [((0 : Int), ("T", (5 : ℚ)))] 15 "T" (by decide)

/-- C10: a payload of five or fewer lines makes the chunk parser raise
`IndexError` (indexing `lines[0]` of the post-preamble empty list), and
consequently the zero-row outcome is only reachable for payloads of at
least six lines. -/
theorem C10_short_chunk_raises :
    (∀ raw, (pySplitlines raw).length ≤ 5 →
      process_knmi_weather_data raw = .error .indexError) ∧
    (∀ raw, process_knmi_weather_data raw = .ok [] →
      6 ≤ (pySplitlines raw).length) := by
  have part1 : ∀ raw, (pySplitlines raw).length ≤ 5 →
      process_knmi_weather_data raw = .error .indexError := by
    intro raw h
    have hnil : knmiLines raw = [] := by
      unfold knmiLines
      exact List.drop_eq_nil_of_le h
    unfold process_knmi_weather_data
    rw [hnil]
  refine ⟨part1, ?_⟩
  intro raw hok
  by_contra hlt
  push_neg at hlt
  have : (pySplitlines raw).length ≤ 5 := by omega
  rw [part1 raw this] at hok
  cases hok

/-- Witness for C10 on a five-line payload. -/
theorem C10_short_chunk_raises_witness :
    process_knmi_weather_data "a\nb\nc\nd\ne" = .error .indexError :=
  C10_short_chunk_raises.1 "a\nb\nc\nd\ne" (by decide)

/-- C1 (amended): for a valid interval (`start ≤ end`) and a server whose
parsed chunk responses only carry timestamps within the requested span
(first hour of day `a` through last hour of day `b`, i.e.
`[1440a, 1440b + 1380]` minutes), every row of the fetched table is
stamped within the whole-day window
`[normalize(start), normalize(end) + 1 day + 23 h]`.  The code never
clips to `[start, end]` itself: rows in the day of `start` before
`start`, and up to a day and 23 hours after `end`, can be returned
(see `C1_counterexample`). -/
theorem C1_day_window (server : Server) (itv : KInterval) (metrics : List Metric)
    (hle : itv.left ≤ itv.right)
    (hserver : ∀ a b f, server a b = .parsed f →
      ∀ r ∈ f.rows, 1440 * a ≤ r.ts ∧ r.ts ≤ 1440 * b + 1380)
    (f : KFrame) (hok : (fetch_weather_data server itv metrics).1 = .ok f)
    (r : KRow) (hr : r ∈ f.rows) :
    normalizeM itv.left ≤ r.ts ∧ r.ts ≤ normalizeM itv.right + 2820 := by
  unfold fetch_weather_data at hok
  rw [if_neg (not_lt.mpr hle)] at hok
  dsimp only at hok
  have hAcc : AccOK (normalizeM itv.left) (normalizeM itv.right + 1440)
      (fetchLoop server metrics (normalizeM itv.left) (normalizeM itv.right + 1440)
        (fetchGrid (normalizeM itv.left) (normalizeM itv.right + 1440))) :=
    fetchLoop_AccOK server metrics _ _ hserver ⟨itv.left / 1440, rfl⟩ _
      (fun g hg => fetchGrid_dvd _ _ g hg)
  unfold fetchFinish at hok
  cases hres : (fetchLoop server metrics (normalizeM itv.left) (normalizeM itv.right + 1440)
      (fetchGrid (normalizeM itv.left) (normalizeM itv.right + 1440))).res with
  | error e =>
      rw [hres] at hok
      exact Except.noConfusion hok
  | ok dfs =>
      obtain ⟨dfW, dfC⟩ := dfs
      rw [hres] at hok
      dsimp only at hok
      injection hok with h1
      obtain ⟨hW, _⟩ := hAcc dfW dfC hres
      have hrW : r ∈ dfW.rows := by
        by_cases hemp : dfC.rows.isEmpty
        · rw [if_pos hemp] at h1
          rw [← h1] at hr
          exact hr
        · rw [if_neg hemp] at h1
          rw [← h1] at hr
          exact finalFormat_sub dfW r hr
      have hb := hW r hrW
      exact ⟨hb.1, by omega⟩

/-- Witness for C1's amended bound at the concrete run of
`C1_counterexample`: the returned 00:00 row respects the whole-day
window. -/
theorem C1_day_window_witness :
    normalizeM c1itv.left ≤ (4320 : Int) ∧ (4320 : Int) ≤ normalizeM c1itv.right + 2820 :=
  C1_day_window c1server c1itv metrics1 (by decide) c1server_honest
    ⟨["temp_outdoor__degC"], [⟨4320, 52, 5, [some (mkRat 1 2)]⟩]⟩ (by decide)
    ⟨4320, 52, 5, [some (mkRat 1 2)]⟩ (by decide)

/-- C8: every value emitted by the spatial interpolator
(`interpolate_weather_data`, geo_interpolate.py lines 51-52) is the
IEEE binary32 round-to-nearest-even image of the fitted RBF interpolant's
evaluation at the target point — the RBF fit itself is an oracle
parameter — and is therefore a fixed point of binary32 rounding, i.e.
exactly representable in single precision (finite-range overflow to
infinity is outside the rational model). -/
theorem C8_float32_exact (rbf : RbfOracle) (df_weather : KFrame)
    (lat__degN lon__degE : ℚ) (p : (Int × String) × ℚ)
    (hp : p ∈ geo_interpolate_weather_data rbf df_weather lat__degN lon__degE) :
    (∃ i, df_weather.cols[i]? = some p.1.2 ∧
        p.2 = roundF32 (rbf (geoStationData df_weather p.1.1 i) (lat__degN, lon__degE))) ∧
      roundF32 p.2 = p.2 := by
  unfold geo_interpolate_weather_data at hp
  dsimp only at hp
  rw [List.mem_flatten] at hp
  obtain ⟨l, hl, hpl⟩ := hp
  rw [List.mem_map] at hl
  obtain ⟨ts, hts, rfl⟩ := hl
  rw [List.mem_map] at hpl
  obtain ⟨im, him, rfl⟩ := hpl
  rw [List.mem_enum_iff_getElem?] at him
  exact ⟨⟨im.1, him, rfl⟩, roundF32_idem _⟩

/-- Witness for C8 at a one-station frame and the constant-1/3 oracle:
the emitted value is 11184811/33554432, the binary32 rounding of 1/3,
and it is its own binary32 rounding. -/
theorem C8_float32_exact_witness :
    (((0 : Int), "T"), c8val) ∈ geo_interpolate_weather_data c8rbf c8frame 52 5 ∧
      ((∃ i, c8frame.cols[i]? = some "T" ∧
          c8val = roundF32 (c8rbf (geoStationData c8frame 0 i) (52, 5))) ∧
        roundF32 c8val = c8val) :=
  ⟨by decide, C8_float32_exact c8rbf c8frame 52 5 (((0 : Int), "T"), c8val) (by decide)⟩
